import Mathlib

/-!
Shallow embedding of `zulu` (src/main.rs): a CLI tool that resolves an
optional wall-clock time and optional AM/PM marker against the host's
current local time and prints the corresponding UTC instant.

Modelling conventions:
* Instants are measured in whole minutes (`Int`); the program always builds
  datetimes with seconds = 0, so minute precision is exact.
* A reading of `Local::now()` is modelled by `LocalClock`: the local
  wall-clock minute count at today's local midnight (`dayStart`), the local
  hour and minute of the reading, and the local UTC offset in minutes
  (`offset`, local = UTC + offset).  The ambient clock is a function
  `Nat → LocalClock` giving the value returned by the n-th call to
  `Local::now()`; computations return the number of calls they made.
* `chrono`'s `Date::and_hms(h, m, 0)` panics on out-of-range components;
  panics are modelled as `none`.
* Rust `u8` values are carried as `Nat`; `u8::from_str` guarantees the
  parsed value is ≤ 255, and the one arithmetic operation on hours
  (`time.hours + 12`) is guarded by `time.hours < 12`, so it never wraps.
-/

/-- `struct Time { hours: u8, minutes: u8 }` from src/main.rs. -/
structure Time where
  hours : Nat
  minutes : Nat
deriving Repr, DecidableEq

/-- `enum Meridian { AM, PM }` from src/main.rs. -/
inductive Meridian where
  | AM
  | PM
deriving Repr, DecidableEq

/-- `Meridian::is_pm`. -/
def Meridian.isPm : Meridian → Bool
  | .AM => false
  | .PM => true

/-- The clap-parsed `struct Args`: optional positional time, optional
positional meridian, optional `--time-format` string. -/
structure Args where
  time : Option Time
  am_pm : Option Meridian
  time_format : Option String

/-- One reading of `Local::now()`: today's local midnight in absolute local
wall-clock minutes, the local hour (0–23) and minute (0–59) of the reading,
and the local-minus-UTC offset in minutes. -/
structure LocalClock where
  dayStart : Int
  hour : Nat
  minute : Nat
  offset : Int
deriving Repr, DecidableEq

/-- A well-formed clock only returns in-range hour and minute fields. -/
def WFClock (clock : Nat → LocalClock) : Prop :=
  ∀ n, (clock n).hour < 24 ∧ (clock n).minute < 60

/-- `impl From<DateTime<Local>> for Time`: `hours = time.hour12().1`,
`minutes = time.minute()`.  chrono's `hour12` returns `hour % 12`, except
that it returns `12` when `hour % 12 == 0`. -/
def Time.fromLocal (now : LocalClock) : Time :=
  { hours := if now.hour % 12 = 0 then 12 else now.hour % 12
    minutes := now.minute }

/-- chrono's `Date::and_hms(h, m, 0)` on today's local date: the local
wall-clock minute count of the built datetime, or `none` for the panic on
an out-of-range hour or minute (seconds are the literal 0). -/
def and_hms (dayStart : Int) (h m : Nat) : Option Int :=
  if h < 24 ∧ m < 60 then some (dayStart + h * 60 + m) else none

/-- The meridian inferred from a clock reading in `Args::meridian`:
`if Local::now().hour() < 12 { AM } else { PM }`. -/
def meridianInfer (now : LocalClock) : Meridian :=
  if now.hour < 12 then .AM else .PM

/-- `Args::meridian`, reading the ambient clock when `am_pm` is absent.
`n` is the index of the next unread clock value; the second component is
the index after this call. -/
def Args.meridianM (args : Args) (clock : Nat → LocalClock) (n : Nat) :
    Meridian × Nat :=
  match args.am_pm with
  | some m => (m, n)
  | none => (meridianInfer (clock n), n + 1)

/-- The hour adjustment at the heart of `Args::zulu` (lines 20–24), with the
resolved meridian as an explicit parameter:
`if time.hours < 12 && meridian.is_pm() { time.hours + 12 } else { time.hours }`.
(The guard `time.hours < 12` keeps `time.hours + 12 ≤ 23`, so the u8 addition
never overflows.) -/
def effectiveHours (t : Time) (m : Meridian) : Nat :=
  if t.hours < 12 && m.isPm then t.hours + 12 else t.hours

/-- `date.and_hms(hours, minutes, 0).into()`: build the local datetime on
today's date and convert it to UTC using the offset captured in `date`. -/
def zuluCore (dayStart offset : Int) (hours minutes : Nat) : Option Int :=
  (and_hms dayStart hours minutes).map (fun w => w - offset)

/-- `Args::zulu`, with the ambient clock explicit.  Clock reads, in source
order: read 0 is `Local::now().date()`; a further read happens in
`unwrap_or_else` when `time` is absent; `self.meridian()` runs (and reads
once more when `am_pm` is absent) only when `time.hours < 12`, because `&&`
short-circuits.  Returns the UTC instant (or `none` for the `and_hms`
panic) and the number of clock reads performed. -/
def Args.zuluM (args : Args) (clock : Nat → LocalClock) :
    Option Int × Nat :=
  let now0 := clock 0
  match args.time with
  | some t =>
    if t.hours < 12 then
      let (m, n2) := args.meridianM clock 1
      (zuluCore now0.dayStart now0.offset
        (if m.isPm then t.hours + 12 else t.hours) t.minutes, n2)
    else
      (zuluCore now0.dayStart now0.offset t.hours t.minutes, 1)
  | none =>
    let t := Time.fromLocal (clock 1)
    if t.hours < 12 then
      let (m, n2) := args.meridianM clock 2
      (zuluCore now0.dayStart now0.offset
        (if m.isPm then t.hours + 12 else t.hours) t.minutes, n2)
    else
      (zuluCore now0.dayStart now0.offset t.hours t.minutes, 2)

/-- A clock reading converted to UTC at minute precision (seconds
truncated): what "the host's current local time, converted to UTC" denotes. -/
def LocalClock.asUtcMinutes (c : LocalClock) : Int :=
  c.dayStart + c.hour * 60 + c.minute - c.offset

/-- Rust's `str::split(':')` on the underlying characters: every occurrence
of the separator splits, empty fields included, and the empty string yields
one empty field. -/
def splitChar (sep : Char) : List Char → List (List Char)
  | [] => [[]]
  | c :: rest =>
    if c = sep then [] :: splitChar sep rest
    else
      match splitChar sep rest with
      | [] => [[c]]
      | f :: fs => (c :: f) :: fs

/-- The accumulating digit loop of `u8::from_str` (core's `from_str_radix`
with radix 10): each byte must be an ASCII digit, and the value must stay
≤ 255 after every step (`checked_mul`/`checked_add`).  Error strings are the
`Display` messages of the corresponding `ParseIntError` kinds. -/
def parseU8Aux : List Char → Nat → Except String Nat
  | [], acc => .ok acc
  | c :: rest, acc =>
    if c.isDigit then
      if acc * 10 + (c.toNat - 48) > 255 then
        .error "number too large to fit in target type"
      else parseU8Aux rest (acc * 10 + (c.toNat - 48))
    else .error "invalid digit found in string"

/-- `u8::from_str`: empty input is `IntErrorKind::Empty`; a lone `+` (or a
lone `-`) is `InvalidDigit`; a leading `+` is stripped (`-` is not stripped
for unsigned types, so it fails in the digit loop); then the digit loop. -/
def parseU8 (l : List Char) : Except String Nat :=
  match l with
  | [] => .error "cannot parse integer from empty string"
  | c :: rest =>
    if c = '+' then
      match rest with
      | [] => .error "invalid digit found in string"
      | _ => parseU8Aux rest 0
    else parseU8Aux (c :: rest) 0

/-- `impl FromStr for Time`: split on `:`; take the first field as hours and
the second as minutes (each through `u8::from_str`, with the error messages
of lines 57–76); a third field is "bad time format".  The iterator calls
`parts.next()` are modelled by positional lookups into the split. -/
def timeFromStr (s : String) : Except String Time :=
  let parts := splitChar ':' s.data
  match parts[0]? with
  | none => .error "missing hours"
  | some h =>
    match parseU8 h with
    | .error e => .error ("unable to parse hours: " ++ e)
    | .ok hours =>
      match parts[1]? with
      | none => .error "missing minutes"
      | some m =>
        match parseU8 m with
        | .error e => .error ("unable to parse minutes: " ++ e)
        | .ok minutes =>
          if (parts[2]?).isSome then .error "bad time format"
          else .ok ⟨hours, minutes⟩

/-- `impl FromStr for Meridian` (lines 98–108), with the error carried as
the `Display` rendering of `MeridianErr` (lines 113–117). -/
def meridianFromStr (s : String) : Except String Meridian :=
  if s = "AM" then .ok .AM
  else if s = "am" then .ok .AM
  else if s = "PM" then .ok .PM
  else if s = "pm" then .ok .PM
  else .error ("unknown am/pm marker: " ++ s)

/-- Numeric value of a list of ASCII digits, most significant first. -/
def digitsVal (l : List Char) : Nat :=
  l.foldl (fun a c => a * 10 + (c.toNat - 48)) 0

/-- Is an `Except` result an error? -/
def isErr : Except String Time → Bool
  | .error _ => true
  | .ok _ => false

/-- Two-digit zero-padded rendering of a (sub-100) number, as chrono's
numeric specifiers produce for hour and minute fields. -/
def pad2 (n : Nat) : String :=
  if n < 10 then "0" ++ toString n else toString n

/-- Hour-of-day of a UTC instant measured in minutes. -/
def utcHour (z : Int) : Nat := ((z.emod 1440) / 60).toNat

/-- Minute-of-hour of a UTC instant measured in minutes. -/
def utcMinute (z : Int) : Nat := (z.emod 60).toNat

/-- Expansion of one strftime specifier for a datetime whose hour is `h`,
minute `m`, and seconds 0, for the specifiers this program's interface
exercises; any other specifier is modelled conservatively as a formatting
failure. -/
def specExpand (h m : Nat) (c : Char) : Option (List Char) :=
  if c = 'H' then some (pad2 h).data
  else if c = 'M' then some (pad2 m).data
  else if c = 'S' then some (pad2 0).data
  else if c = 'R' then some (pad2 h ++ ":" ++ pad2 m).data
  else if c = 'T' then some (pad2 h ++ ":" ++ pad2 m ++ ":" ++ pad2 0).data
  else if c = '%' then some ['%']
  else if c = 'n' then some ['\n']
  else if c = 't' then some ['\t']
  else none

/-- strftime-style interpretation of a format string over the fields of a
resolved instant: literal characters pass through, `%` introduces a
specifier, a trailing lone `%` is malformed. -/
def chronoFormatAux (h m : Nat) : List Char → Option (List Char)
  | [] => some []
  | ['%'] => none
  | '%' :: c :: rest =>
    match specExpand h m c, chronoFormatAux h m rest with
    | some p, some r => some (p ++ r)
    | _, _ => none
  | c :: rest =>
    match chronoFormatAux h m rest with
    | some r => some (c :: r)
    | none => none

/-- `DateTime<Utc>::format` applied to a UTC instant in minutes. -/
def chronoFormat (z : Int) (f : String) : Option String :=
  (chronoFormatAux (utcHour z) (utcMinute z) f.data).map (fun l => ⟨l⟩)

/-- `run` (lines 136–143): resolve the instant, format it with the supplied
format string or `"%R"`, and `println!` the result (the written text is the
rendered string followed by a newline).  `none` models a panic (from
`Args::zulu` or from a failing format). -/
def runOutput (args : Args) (clock : Nat → LocalClock) : Option String :=
  match (args.zuluM clock).1 with
  | none => none
  | some z =>
    match args.time_format with
    | some f => (chronoFormat z f).map (fun r => r ++ "\n")
    | none => (chronoFormat z "%R").map (fun r => r ++ "\n")

theorem zuluCore_isSome (d o : Int) (h m : Nat) :
    (zuluCore d o h m).isSome = true ↔ (h < 24 ∧ m < 60) := by
  simp only [zuluCore, and_hms]
  split <;> simp_all

/-- C1: meridian adjustment adds 12 exactly when the hour is below 12 and the
meridian is PM; in every other case (PM with hour ≥ 12, or AM anywhere) the
hour passes through unchanged — in particular `21:15 AM` stays `21`. -/
theorem effectiveHours_meridian_rule : ∀ (t : Time) (m : Meridian),
    (t.hours < 12 → m = .PM → effectiveHours t m = t.hours + 12)
    ∧ (¬(t.hours < 12 ∧ m = .PM) → effectiveHours t m = t.hours)
    ∧ (12 ≤ t.hours → effectiveHours t m = t.hours)
    ∧ effectiveHours ⟨21, 15⟩ .AM = 21 := by
  intro t m
  refine ⟨?_, ?_, ?_, rfl⟩
  · intro h hm
    subst hm
    simp [effectiveHours, h, Meridian.isPm]
  · intro h
    cases m with
    | AM => simp [effectiveHours, Meridian.isPm]
    | PM =>
      have hlt : ¬t.hours < 12 := fun hlt => h ⟨hlt, rfl⟩
      simp [effectiveHours, Meridian.isPm, hlt]
  · intro h
    have hlt : ¬t.hours < 12 := by omega
    cases m <;> simp [effectiveHours, Meridian.isPm, hlt]

theorem effectiveHours_meridian_rule_witness :
    effectiveHours ⟨9, 15⟩ .PM = 9 + 12 :=
  (effectiveHours_meridian_rule ⟨9, 15⟩ .PM).1 (by decide) rfl

/-- C2 counterexample: the parser accepts `"25:00"` (25 and 0 are valid
`u8`s), but resolution hits the `and_hms` panic, so the resolver does not
produce a UTC instant for every well-typed input. -/
theorem zulu_panics_on_hours_25 :
    (({ time := some ⟨25, 0⟩, am_pm := some .AM, time_format := none } : Args).zuluM
      (fun _ => ⟨0, 10, 0, 0⟩)).1 = none := rfl

/-- C2 (amended): given a well-formed clock, resolution produces a UTC
instant exactly when any explicit time has hours < 24 and minutes < 60
(a derived time is always in range); out-of-range explicit values make the
datetime construction fail (the `and_hms` panic). -/
theorem zulu_succeeds_iff_in_range : ∀ (args : Args) (clock : Nat → LocalClock),
    WFClock clock →
    (((args.zuluM clock).1).isSome = true ↔
      ∀ t, args.time = some t → t.hours < 24 ∧ t.minutes < 60) := by
  intro args clock hwf
  match harg : args.time with
  | some t =>
    simp only [Args.zuluM, harg]
    by_cases ht : t.hours < 12
    · simp only [ht, if_true]
      rcases hm : args.meridianM clock 1 with ⟨m, n⟩
      cases m
      all_goals
        simp only [hm, Meridian.isPm, Bool.false_eq_true, if_false, if_true,
          zuluCore_isSome, harg, Option.some.injEq, forall_eq']
      all_goals
        constructor <;> intro hx <;> omega
    · simp only [ht, if_false]
      simp only [zuluCore_isSome, harg, Option.some.injEq, forall_eq']
  | none =>
    simp only [Args.zuluM, harg]
    have hh : (Time.fromLocal (clock 1)).hours ≤ 12 := by
      simp only [Time.fromLocal]
      split <;> omega
    have hmn : (Time.fromLocal (clock 1)).minutes < 60 := (hwf 1).2
    by_cases ht : (Time.fromLocal (clock 1)).hours < 12
    · simp only [ht, if_true]
      rcases hm : args.meridianM clock 2 with ⟨m, n⟩
      cases m <;>
        simp only [hm, Meridian.isPm, Bool.false_eq_true, if_false, if_true,
          zuluCore_isSome, harg] <;>
        simp <;> omega
    · simp only [ht, if_false]
      simp only [zuluCore_isSome, harg]
      simp
      omega

theorem zulu_succeeds_iff_in_range_witness :
    ((((⟨some ⟨9, 30⟩, none, none⟩ : Args)).zuluM (fun _ => ⟨0, 10, 0, 0⟩)).1).isSome = true ↔
      ∀ t, (⟨some ⟨9, 30⟩, none, none⟩ : Args).time = some t →
        t.hours < 24 ∧ t.minutes < 60 :=
  zulu_succeeds_iff_in_range _ _ (fun _ => ⟨by decide, by decide⟩)

/-- C3 (code bug): with no arguments at local time 00:30 (offset 0), the
resolver yields 12:30 UTC-equivalent (minute 750), not 00:30 (minute 30):
`hour12` maps hour 0 to 12, and the PM-only adjustment never maps it back,
so the result is 12 hours ahead of the current local time. -/
theorem zulu_midnight_divergence :
    (({ time := none, am_pm := none, time_format := none } : Args).zuluM
        (fun _ => ⟨0, 0, 30, 0⟩)).1 = some 750
    ∧ (⟨0, 0, 30, 0⟩ : LocalClock).asUtcMinutes = 30
    ∧ (750 : Int) ≠ 30 :=
  ⟨rfl, rfl, by decide⟩

/-- C4 counterexample: with no explicit time and no explicit meridian (and a
morning clock), `Args::zulu` reads `Local::now()` three times — once for the
date, once for the time, once for the meridian inference — not exactly once. -/
theorem zulu_reads_clock_three_times :
    (({ time := none, am_pm := none, time_format := none } : Args).zuluM
      (fun _ => ⟨0, 10, 30, 0⟩)).2 = 3 ∧ (3 : Nat) ≠ 1 :=
  ⟨rfl, by decide⟩

/-- C4 (amended): each invocation reads the ambient clock between one and
three times, and the resolved instant (together with the read count) is a
deterministic function of the arguments and the first three clock readings:
two runs whose clocks agree on those readings produce the same instant. -/
theorem zulu_reads_bounded_deterministic :
    (∀ (args : Args) (clock clock' : Nat → LocalClock),
      (∀ n, n < 3 → clock n = clock' n) →
      args.zuluM clock = args.zuluM clock')
    ∧ (∀ (args : Args) (clock : Nat → LocalClock),
      1 ≤ (args.zuluM clock).2 ∧ (args.zuluM clock).2 ≤ 3) := by
  constructor
  · intro args clock clock' h
    have h0 := h 0 (by omega)
    have h1 := h 1 (by omega)
    have h2 := h 2 (by omega)
    obtain ⟨ot, oam, f⟩ := args
    cases ot <;> cases oam <;>
      simp only [Args.zuluM, Args.meridianM, h0, h1, h2]
  · intro args clock
    obtain ⟨ot, oam, f⟩ := args
    cases ot <;> cases oam <;>
      simp only [Args.zuluM, Args.meridianM] <;>
      (repeat' split) <;> simp

theorem zulu_reads_bounded_deterministic_witness :
    ({ time := none, am_pm := none, time_format := none } : Args).zuluM
        (fun _ => ⟨0, 10, 30, 0⟩) =
      ({ time := none, am_pm := none, time_format := none } : Args).zuluM
        (fun n => if n < 5 then ⟨0, 10, 30, 0⟩ else ⟨1, 2, 3, 4⟩) :=
  zulu_reads_bounded_deterministic.1 _ _ _
    (fun n hn => by simp [show n < 5 by omega])

/-- C5: when no explicit meridian is supplied, `Args::meridian` infers AM
exactly when the current ambient local hour is below 12, and inside
`Args::zulu` this inference consults a fresh clock reading (read index 1)
even when an explicit time was supplied — the supplied hour plays no part
in the inference. -/
theorem meridian_inferred_from_current_clock :
    (∀ (args : Args) (clock : Nat → LocalClock) (n : Nat),
      args.am_pm = none →
      ((args.meridianM clock n).1 = Meridian.AM ↔ (clock n).hour < 12))
    ∧ (∀ (t : Time) (f : Option String) (clock : Nat → LocalClock),
      t.hours < 12 →
      (({ time := some t, am_pm := none, time_format := f } : Args).zuluM clock).1 =
        zuluCore (clock 0).dayStart (clock 0).offset
          (if (clock 1).hour < 12 then t.hours else t.hours + 12) t.minutes) := by
  constructor
  · intro args clock n h
    simp only [Args.meridianM, h, meridianInfer]
    split <;> simp_all
  · intro t f clock ht
    simp only [Args.zuluM, Args.meridianM, meridianInfer, ht, if_true]
    by_cases hc : (clock 1).hour < 12 <;> simp [hc, Meridian.isPm]

theorem meridian_inferred_from_current_clock_witness :
    ((({ time := some ⟨9, 15⟩, am_pm := none, time_format := none } : Args).meridianM
        (fun _ => ⟨0, 14, 0, 0⟩) 0).1 = Meridian.AM ↔
      ((fun _ => (⟨0, 14, 0, 0⟩ : LocalClock)) 0).hour < 12) :=
  meridian_inferred_from_current_clock.1 _ _ 0 rfl

/-- C6: meridian parsing accepts exactly the four tokens `AM`, `am`, `PM`,
`pm` (the first two mapping to AM, the last two to PM) and rejects every
other string — mixed-case `Am` included — with an error message that appends
the offending token verbatim to `unknown am/pm marker: `. -/
theorem meridianFromStr_exact : ∀ s : String,
    ((s = "AM" ∨ s = "am") → meridianFromStr s = .ok .AM)
    ∧ ((s = "PM" ∨ s = "pm") → meridianFromStr s = .ok .PM)
    ∧ (s ≠ "AM" → s ≠ "am" → s ≠ "PM" → s ≠ "pm" →
        meridianFromStr s = .error ("unknown am/pm marker: " ++ s))
    ∧ meridianFromStr "Am" = .error "unknown am/pm marker: Am" := by
  intro s
  refine ⟨?_, ?_, ?_, rfl⟩
  · rintro (rfl | rfl) <;> rfl
  · rintro (rfl | rfl) <;> rfl
  · intro h1 h2 h3 h4
    simp [meridianFromStr, h1, h2, h3, h4]

theorem meridianFromStr_exact_witness :
    meridianFromStr "Am" = .error ("unknown am/pm marker: " ++ "Am") :=
  (meridianFromStr_exact "Am").2.2.1 (by decide) (by decide) (by decide) (by decide)

theorem splitChar_ne_nil (sep : Char) (l : List Char) : splitChar sep l ≠ [] := by
  induction l with
  | nil => simp [splitChar]
  | cons c rest ih =>
    simp only [splitChar]
    split
    · simp
    · cases h : splitChar sep rest <;> simp

theorem append_length_ne (a e t : String) (h : t.length < a.length) :
    a ++ e ≠ t := by
  intro he
  have hl := congrArg String.length he
  rw [String.length_append] at hl
  omega

theorem timeFromStr_cons (s : String) (a : List Char) (rest : List (List Char))
    (h : splitChar ':' s.data = a :: rest) :
    timeFromStr s =
      match parseU8 a with
      | .error e => .error ("unable to parse hours: " ++ e)
      | .ok hours =>
        match rest[0]? with
        | none => .error "missing minutes"
        | some m =>
          match parseU8 m with
          | .error e => .error ("unable to parse minutes: " ++ e)
          | .ok minutes =>
            if (rest[1]?).isSome then .error "bad time format"
            else .ok ⟨hours, minutes⟩ := by
  simp only [timeFromStr, h, List.getElem?_cons_zero, List.getElem?_cons_succ]

/-- C10: `str::split` always yields at least one field, so time parsing can
never hit the "missing hours" branch; an unparsable first field surfaces as
"unable to parse hours: …" instead. -/
theorem timeFromStr_no_missing_hours : ∀ s : String,
    timeFromStr s ≠ .error "missing hours"
    ∧ 1 ≤ (splitChar ':' s.data).length
    ∧ (∀ a rest e, splitChar ':' s.data = a :: rest → parseU8 a = .error e →
        timeFromStr s = .error ("unable to parse hours: " ++ e)) := by
  intro s
  obtain ⟨a, rest, hsplit⟩ : ∃ a rest, splitChar ':' s.data = a :: rest := by
    cases h : splitChar ':' s.data with
    | nil => exact absurd h (splitChar_ne_nil ':' s.data)
    | cons a rest => exact ⟨a, rest, rfl⟩
  refine ⟨?_, by simp [hsplit], ?_⟩
  · rw [timeFromStr_cons s a rest hsplit]
    split
    · intro hx
      exact append_length_ne "unable to parse hours: " _ "missing hours" (by decide)
        (Except.error.inj hx)
    · split
      · intro hx
        exact absurd (Except.error.inj hx) (by decide)
      · split
        · intro hx
          exact append_length_ne "unable to parse minutes: " _ "missing hours" (by decide)
            (Except.error.inj hx)
        · split
          · intro hx
            exact absurd (Except.error.inj hx) (by decide)
          · intro hx
            exact Except.noConfusion hx
  · intro a' rest' e h he
    rw [hsplit] at h
    obtain ⟨rfl, rfl⟩ : a = a' ∧ rest = rest' := by
      have h1 := congrArg List.head? h
      have h2 := congrArg List.tail h
      simp at h1 h2
      exact ⟨h1, h2⟩
    rw [timeFromStr_cons s a rest hsplit, he]

theorem timeFromStr_no_missing_hours_witness :
    timeFromStr "x:30" = .error ("unable to parse hours: " ++ "invalid digit found in string") :=
  (timeFromStr_no_missing_hours "x:30").2.2 ['x'] [['3', '0']]
    "invalid digit found in string" rfl rfl

/-- C7 counterexample: `"abc"` has a single colon-delimited field, yet
parsing fails with "unable to parse hours: …", not with a "missing …"
error — the hours field is parsed (and can fail) before the field count is
examined. -/
theorem timeFromStr_one_field_not_missing :
    timeFromStr "abc" = .error "unable to parse hours: invalid digit found in string"
    ∧ (splitChar ':' "abc".data).length = 1
    ∧ ("unable to parse hours: invalid digit found in string" : String) ≠ "missing hours"
    ∧ ("unable to parse hours: invalid digit found in string" : String) ≠ "missing minutes" :=
  ⟨rfl, rfl, by decide, by decide⟩

/-- C7 (amended): parsing fails for every string whose colon split does not
have exactly two fields and for every two-field string with an unparsable
field; with more than two fields and the first two parsing, the error is
"bad time format"; with a single field the error is "missing minutes" when
that field parses as a `u8` (otherwise "unable to parse hours: …"). -/
theorem timeFromStr_field_errors : ∀ s : String,
    ((splitChar ':' s.data).length ≠ 2 → isErr (timeFromStr s) = true)
    ∧ (∀ a, splitChar ':' s.data = [a] → (∃ v, parseU8 a = .ok v) →
        timeFromStr s = .error "missing minutes")
    ∧ (∀ a b rest, splitChar ':' s.data = a :: b :: rest → rest ≠ [] →
        (∃ v, parseU8 a = .ok v) → (∃ v, parseU8 b = .ok v) →
        timeFromStr s = .error "bad time format")
    ∧ (∀ a b, splitChar ':' s.data = [a, b] →
        (isErr (timeFromStr s) = true ↔
          (∃ e, parseU8 a = .error e) ∨ (∃ e, parseU8 b = .error e))) := by
  intro s
  refine ⟨?_, ?_, ?_, ?_⟩
  · intro hlen
    obtain ⟨a, rest, hsplit⟩ : ∃ a rest, splitChar ':' s.data = a :: rest := by
      cases h : splitChar ':' s.data with
      | nil => exact absurd h (splitChar_ne_nil ':' s.data)
      | cons a rest => exact ⟨a, rest, rfl⟩
    rw [timeFromStr_cons s a rest hsplit]
    rw [hsplit] at hlen
    cases rest with
    | nil =>
      cases hpa : parseU8 a <;> simp [isErr, hpa]
    | cons b rest2 =>
      cases rest2 with
      | nil => simp at hlen
      | cons c rest3 =>
        cases hpa : parseU8 a <;> cases hpb : parseU8 b <;> simp [isErr, hpa, hpb]
  · intro a hsplit ⟨v, hv⟩
    rw [timeFromStr_cons s a [] hsplit]
    simp [hv]
  · intro a b rest hsplit hne ⟨v1, hv1⟩ ⟨v2, hv2⟩
    rw [timeFromStr_cons s a (b :: rest) hsplit, hv1]
    cases rest with
    | nil => exact absurd rfl hne
    | cons c rest2 => simp [hv2]
  · intro a b hsplit
    rw [timeFromStr_cons s a [b] hsplit]
    cases hpa : parseU8 a <;> cases hpb : parseU8 b <;> simp [isErr, hpa, hpb]

theorem timeFromStr_field_errors_witness :
    timeFromStr "12" = .error "missing minutes" :=
  (timeFromStr_field_errors "12").2.1 ['1', '2'] rfl ⟨12, rfl⟩

theorem digit_toNat_bounds (c : Char) (hc : c.isDigit = true) :
    48 ≤ c.toNat ∧ c.toNat ≤ 57 := by
  simp [Char.isDigit] at hc
  exact hc

theorem splitChar_not_mem (sep : Char) (l : List Char) (h : sep ∉ l) :
    splitChar sep l = [l] := by
  induction l with
  | nil => rfl
  | cons c rest ih =>
    simp only [List.mem_cons, not_or] at h
    have hcne : ¬c = sep := fun hcs => h.1 hcs.symm
    simp only [splitChar, ih h.2, if_neg hcne]

theorem splitChar_append_sep (sep : Char) (l r : List Char) (h : sep ∉ l) :
    splitChar sep (l ++ sep :: r) = l :: splitChar sep r := by
  induction l with
  | nil => simp [splitChar]
  | cons c rest ih =>
    simp only [List.mem_cons, not_or] at h
    have hcne : ¬c = sep := fun hcs => h.1 hcs.symm
    simp only [List.cons_append, splitChar, List.append_eq, ih h.2, if_neg hcne]

theorem foldl_digits_ge (l : List Char) (acc : Nat) :
    acc ≤ l.foldl (fun a c => a * 10 + (c.toNat - 48)) acc := by
  induction l generalizing acc with
  | nil => simp
  | cons c rest ih =>
    simp only [List.foldl_cons]
    exact le_trans (by omega) (ih (acc * 10 + (c.toNat - 48)))

theorem parseU8Aux_digits (l : List Char) (acc : Nat)
    (hd : ∀ c ∈ l, c.isDigit = true)
    (hb : l.foldl (fun a c => a * 10 + (c.toNat - 48)) acc ≤ 255) :
    parseU8Aux l acc = .ok (l.foldl (fun a c => a * 10 + (c.toNat - 48)) acc) := by
  induction l generalizing acc with
  | nil => rfl
  | cons c rest ih =>
    have hc := hd c (List.mem_cons_self c rest)
    have hstep : acc * 10 + (c.toNat - 48) ≤ 255 := by
      have hge := foldl_digits_ge rest (acc * 10 + (c.toNat - 48))
      simp only [List.foldl_cons] at hb
      omega
    simp only [parseU8Aux, hc, if_true, if_neg (by omega : ¬acc * 10 + (c.toNat - 48) > 255),
      List.foldl_cons]
    exact ih (acc * 10 + (c.toNat - 48)) (fun x hx => hd x (List.mem_cons_of_mem _ hx))
      (by simpa using hb)

theorem foldl_digits_lt (l : List Char) (acc : Nat)
    (hd : ∀ c ∈ l, c.isDigit = true) :
    l.foldl (fun a c => a * 10 + (c.toNat - 48)) acc < (acc + 1) * 10 ^ l.length := by
  induction l generalizing acc with
  | nil => simp
  | cons c rest ih =>
    simp only [List.foldl_cons, List.length_cons]
    have h57 := digit_toNat_bounds c (hd c (List.mem_cons_self c rest))
    calc List.foldl (fun a c => a * 10 + (c.toNat - 48)) (acc * 10 + (c.toNat - 48)) rest
        < (acc * 10 + (c.toNat - 48) + 1) * 10 ^ rest.length :=
          ih (acc * 10 + (c.toNat - 48)) (fun x hx => hd x (List.mem_cons_of_mem _ hx))
      _ ≤ (acc + 1) * 10 ^ (rest.length + 1) := by
          rw [pow_succ]
          have h9 : c.toNat - 48 ≤ 9 := by omega
          nlinarith [pow_pos (by omega : (0 : ℕ) < 10) rest.length]

theorem digitsVal_lt (l : List Char) (hd : ∀ c ∈ l, c.isDigit = true) :
    digitsVal l < 10 ^ l.length := by
  have := foldl_digits_lt l 0 hd
  simpa [digitsVal] using this

theorem parseU8_digits (l : List Char) (hne : l ≠ [])
    (hd : ∀ c ∈ l, c.isDigit = true) (hb : digitsVal l ≤ 255) :
    parseU8 l = .ok (digitsVal l) := by
  cases l with
  | nil => exact absurd rfl hne
  | cons c rest =>
    have hc := hd c (List.mem_cons_self c rest)
    have hcp : ¬c = '+' := by
      intro h
      rw [h] at hc
      simp at hc
    simp only [parseU8, if_neg hcp]
    exact parseU8Aux_digits (c :: rest) 0 hd (by simpa [digitsVal] using hb)

/-- C8: every well-formed `H:MM` or `HH:MM` string (one- or two-digit hours
field, two-digit minutes field, minutes value at most 59) parses
successfully, and the parsed hours and minutes are exactly the numeric
values written in the string. -/
theorem timeFromStr_roundtrip : ∀ (hs ms : List Char),
    hs ≠ [] → hs.length ≤ 2 → ms.length = 2 →
    (∀ c ∈ hs, c.isDigit = true) → (∀ c ∈ ms, c.isDigit = true) →
    digitsVal ms ≤ 59 →
    timeFromStr ⟨hs ++ ':' :: ms⟩ = .ok ⟨digitsVal hs, digitsVal ms⟩ := by
  intro hs ms hne hlen2 hlenm hdh hdm hm59
  have hns : ':' ∉ hs := fun hmem => by
    have := hdh ':' hmem
    simp at this
  have hnm : ':' ∉ ms := fun hmem => by
    have := hdm ':' hmem
    simp at this
  have hsplit : splitChar ':' (hs ++ ':' :: ms) = [hs, ms] := by
    rw [splitChar_append_sep ':' hs ms hns, splitChar_not_mem ':' ms hnm]
  have hbs : digitsVal hs ≤ 255 := by
    have h1 := digitsVal_lt hs hdh
    have h2 : 10 ^ hs.length ≤ 10 ^ 2 := Nat.pow_le_pow_right (by omega) hlen2
    omega
  have hbm : digitsVal ms ≤ 255 := by omega
  have hmne : ms ≠ [] := by
    intro h
    rw [h] at hlenm
    simp at hlenm
  have hdata : (⟨hs ++ ':' :: ms⟩ : String).data = hs ++ ':' :: ms := rfl
  rw [timeFromStr_cons ⟨hs ++ ':' :: ms⟩ hs [ms] (by rw [hdata, hsplit]),
    parseU8_digits hs hne hdh hbs]
  simp [parseU8_digits ms hmne hdm hbm]

theorem timeFromStr_roundtrip_witness :
    timeFromStr ⟨['9', ':', '0', '5']⟩ = .ok ⟨9, 5⟩ :=
  timeFromStr_roundtrip ['9'] ['0', '5'] (by decide) (by decide) (by decide)
    (by decide) (by decide) (by decide)

/-- C9: on success the program writes exactly one newline-terminated line:
the resolved UTC instant rendered with the user-supplied strftime-style
format string when one is given and with `"%R"` (24-hour `HH:MM`)
otherwise; `"%H-%M"` applied to 09:05 renders `"09-05"`, and the default
renders 09:05 as `"09:05"`. -/
theorem runOutput_format_choice : ∀ (args : Args) (clock : Nat → LocalClock) (z : Int),
    ((args.zuluM clock).1 = some z →
      runOutput args clock =
        (chronoFormat z (args.time_format.getD "%R")).map (fun r => r ++ "\n"))
    ∧ chronoFormat (9 * 60 + 5) "%H-%M" = some "09-05"
    ∧ chronoFormat (9 * 60 + 5) "%R" = some "09:05" := by
  intro args clock z
  refine ⟨?_, rfl, rfl⟩
  intro h
  simp only [runOutput, h]
  cases args.time_format <;> simp [Option.getD]

theorem runOutput_format_choice_witness :
    runOutput { time := some ⟨9, 5⟩, am_pm := some .AM, time_format := some "%H-%M" }
        (fun _ => ⟨0, 1, 0, 0⟩) =
      (chronoFormat 545
        ((some "%H-%M" : Option String).getD "%R")).map (fun r => r ++ "\n") :=
  (runOutput_format_choice
    { time := some ⟨9, 5⟩, am_pm := some .AM, time_format := some "%H-%M" }
    (fun _ => ⟨0, 1, 0, 0⟩) 545).1 rfl
